import Mathlib

/-!
Verification development for the qtrader market-data loader
(`qtrader/envs/data_loader.py`).

The module is embedded shallowly:

* pandas `DataFrame`s become `Table`: a date index (`ℤ`), a column-name list,
  and column-major rational data.  Floating-point values are modelled by `ℚ`;
  NaN/missing entries are outside the model (claims about missing data are
  stated on fully populated tables, the only ones the verified properties
  inspect).
* the live provider `quandl.get` becomes an explicit function argument
  `src : Quandl` returning `none` exactly when the Python call would raise
  (the `except:` in `Finance._get` catches everything);
* fallible operations return `Except DataError _`, and the warnings that
  `logger.warn` would emit are returned alongside as a `List String`;
* the external collaborators `qtrader.utils.pandas.clean` and
  `qtrader.simulation.VAR` are part of the repository but not among the
  sources; they are modelled from the specification (see their doc comments).
-/

namespace QTrader

/-- A date-indexed, ticker-columned numeric table (the shallow embedding of a
pandas `DataFrame`).  `data` is column-major: `data[j]` is the column named
`cols[j]`, and each column has one entry per index date. -/
structure Table where
  index : List ℤ
  cols : List String
  data : List (List ℚ)

/-- Well-formedness of a table: one data column per column name, and every
column has exactly one entry per index date. -/
def Table.WF (t : Table) : Prop :=
  t.data.length = t.cols.length ∧ ∀ c ∈ t.data, c.length = t.index.length

/-- One per-ticker series as returned by the live provider: date-indexed
observations of the single `Adj. Close` column that `Finance.Prices`
extracts (data_loader.py line 143). -/
abbrev Series : Type := List (ℤ × ℚ)

/-- The live market-data provider (`quandl.get` with the WIKI prefix),
abstracted as a function of ticker, start date and end date.  `none` models
any raised exception (caught wholesale by `Finance._get`). -/
abbrev Quandl : Type := String → Option ℤ → Option ℤ → Option Series

/-- A resampling frequency, abstracted as the map from a date to the label of
the period containing it (e.g. business day, week, month). -/
abbrev Freq : Type := ℤ → ℤ

/-- The error taxonomy of the specification.  The source has no exception
classes of its own; these name the two failure modes its calls exhibit. -/
inductive DataError
  | DataUnavailable
  | ModelFitError
deriving DecidableEq

/-- Row `i` of a table, read across the column-major data. -/
def Table.row (t : Table) (i : ℕ) : List ℚ :=
  t.data.map (fun c => c.getD i 0)

/-- Insert an element into a list sorted by an integer key (ascending). -/
def insertBy {α : Type} (key : α → ℤ) (a : α) : List α → List α
  | [] => [a]
  | x :: xs => if key a ≤ key x then a :: x :: xs else x :: insertBy key a xs

/-- Insertion sort by an integer key, ascending: the embedding of pandas
`sort_index(ascending=True)`. -/
def sortBy {α : Type} (key : α → ℤ) (l : List α) : List α :=
  l.foldr (insertBy key) []

/-- Sort the rows of a table by date, ascending (`df.sort_index(ascending=True)`). -/
def Table.sortIndex (t : Table) : Table :=
  let pairs := t.index.zip ((List.range t.index.length).map t.row)
  let sorted := sortBy Prod.fst pairs
  { index := sorted.map Prod.fst,
    cols := t.cols,
    data := (List.range t.cols.length).map (fun j => sorted.map (fun p => p.2.getD j 0)) }

/-- Whether date `d` lies in the optional range `[s, e]`, inclusive on both
ends; an absent bound is unbounded on that side.  This is the row-selection
predicate of pandas date-label slicing `.loc[start:end]` on a sorted index. -/
def inRange (s e : Option ℤ) (d : ℤ) : Bool :=
  (s.all (fun a => decide (a ≤ d))) && (e.all (fun b => decide (d ≤ b)))

/-- Date-label slicing `.loc[start_date:end_date]`: keep exactly the rows whose
date lies in the inclusive range. -/
def Table.locSlice (t : Table) (s e : Option ℤ) : Table :=
  { index := t.index.filter (inRange s e),
    cols := t.cols,
    data := t.data.map (fun c =>
      ((t.index.zip c).filter (fun p => inRange s e p.1)).map Prod.snd) }

/-- Percentage change down one column followed by dropping the first slot:
entry `t` of the result is `(c[t+1] - c[t]) / c[t]`.  This is
`pct_change()[1:]` applied to a single column (data_loader.py line 105). -/
def pctCol (c : List ℚ) : List ℚ :=
  List.zipWith (fun p q => (q - p) / p) c c.tail

/-- `pct_change()[1:]` on a whole table: the index loses its first date and
every column becomes its consecutive percentage changes. -/
def Table.pctChangeDrop (t : Table) : Table :=
  { index := t.index.tail, cols := t.cols, data := t.data.map pctCol }

/-- `resample(freq).last()`: group consecutive dates sharing a period label and
keep the last row of each group, relabelling to the period label.  (The
pandas NaN-filling of empty periods is outside the rational model; no
verified property depends on it.) -/
def Table.resample (t : Table) (freq : Freq) : Table :=
  let n := t.index.length
  let keep := (List.range n).filter (fun i =>
    decide (i + 1 = n) || decide (freq (t.index.getD i 0) ≠ freq (t.index.getD (i + 1) 0)))
  { index := keep.map (fun i => freq (t.index.getD i 0)),
    cols := t.cols,
    data := t.data.map (fun c => keep.map (fun i => c.getD i 0)) }

/-- The column of `t` named `name` (empty when absent). -/
def Table.col (t : Table) (name : String) : List ℚ :=
  match t.cols.findIdx? (fun c => c == name) with
  | some j => t.data.getD j []
  | none => []

/-- The warning `Finance._get` logs when a fetch fails (data_loader.py line 46). -/
def Finance.warnMsg (ticker : String) : String :=
  "failed to fetch market data for " ++ ticker

/-- `Finance._get` (data_loader.py lines 43-47): call the provider inside a
catch-all; on failure return `None` and log a warning.  The result pairs the
optional series with the warnings emitted. -/
def Finance._get (src : Quandl) (ticker : String) (s e : Option ℤ) :
    Option Series × List String :=
  match src ticker s e with
  | some df => (some df, [])
  | none => (none, [Finance.warnMsg ticker])

/-- `Finance._csv` (data_loader.py lines 49-70): load the cached table (the
`Table` argument models the parsed CSV), sort its rows by date ascending, and
keep the requested tickers that exist among its columns.  `union` iterates
over `tickers`, so the surviving columns appear in the caller's requested
order. -/
def Finance._csv (cache : Table) (tickers : List String) : Table :=
  let df := cache.sortIndex
  let union := tickers.filter (fun t => df.cols.contains t)
  { index := df.index, cols := union, data := union.map df.col }

/-- Assembly of the fetched per-ticker series into one frame
(`pd.DataFrame(data)`, data_loader.py line 145): columns in dictionary
insertion order, index the sorted union of all observation dates.  pandas
fills a date missing from some series with NaN; such entries are outside the
rational model and are represented by a `0` placeholder that no verified
property reads. -/
def assemble (entries : List (String × Series)) : Table :=
  let dates := (sortBy id ((entries.map (fun p => p.2.map Prod.fst)).flatten)).dedup
  { index := dates,
    cols := entries.map Prod.fst,
    data := entries.map (fun p => dates.map (fun d => (p.2.lookup d).getD 0)) }

/-- The live branch of `Finance.Prices` (data_loader.py lines 136-146): fetch
each ticker through `Finance._get`, keep the successful ones, assemble, sort
and resample.  When every fetch fails the assembled frame `pd.DataFrame({})`
carries a `RangeIndex`, on which `.resample` raises; the specification's
taxonomy names that failure `DataUnavailable`. -/
def Finance.pricesLive (src : Quandl) (tickers : List String) (s e : Option ℤ)
    (freq : Freq) : Except DataError Table × List String :=
  let fetched := tickers.map (fun t => (t, Finance._get src t s e))
  let warnings := (fetched.map (fun p => p.2.2)).flatten
  let entries := fetched.filterMap (fun p => p.2.1.map (fun ser => (p.1, ser)))
  if entries.isEmpty then
    (Except.error DataError.DataUnavailable, warnings)
  else
    (Except.ok (((assemble entries).sortIndex).resample freq), warnings)

/-- `Finance.Prices` (data_loader.py lines 107-146): cached branch when a CSV
path is supplied (column restriction then date-label slicing, no resampling),
live branch otherwise. -/
def Finance.Prices (src : Quandl) (tickers : List String) (s e : Option ℤ)
    (freq : Freq) (csv : Option Table) : Except DataError Table × List String :=
  match csv with
  | some cache => (Except.ok ((Finance._csv cache tickers).locSlice s e), [])
  | none => Finance.pricesLive src tickers s e freq

/-- `Finance.Returns` (data_loader.py lines 72-105): cached branch returns the
cache's (return) table sliced directly; live branch derives returns from
`Finance.Prices` by `pct_change()[1:]`. -/
def Finance.Returns (src : Quandl) (tickers : List String) (s e : Option ℤ)
    (freq : Freq) (csv : Option Table) : Except DataError Table × List String :=
  match csv with
  | some cache => (Except.ok ((Finance._csv cache tickers).locSlice s e), [])
  | none =>
    match Finance.pricesLive src tickers s e freq with
    | (Except.error er, w) => (Except.error er, w)
    | (Except.ok p, w) => (Except.ok p.pctChangeDrop, w)

/-- Modelled from the spec: the missing-data cleaner
`qtrader.utils.pandas.clean`, a repository module not among the sources.  The
spec's contract (section 6): returns a table with no missing values, same
shape or fewer rows, deterministic.  Tables of this rational model carry no
missing values, so cleaning leaves them unchanged. -/
def clean (t : Table) : Table := t

/-- Modelled from the spec: the fitting collaborator `qtrader.simulation.VAR`
(`_VAR` in the source), a repository module not among the sources.  Per the
spec it fails with `ModelFitError` when `order < 1` (before any fitting
attempt) or when the cleaned table has fewer rows than the order requires,
and otherwise returns a simulated return table of the same shape as its
input.  The statistical simulation itself is abstracted as the argument
`sim`; the verified claims depend only on the validation branches, and the
exact row threshold is the collaborator's (here: strictly more rows than the
order). -/
def _VAR (sim : Table → ℤ → Table) (df : Table) (order : ℤ) :
    Except DataError Table :=
  if order < 1 then Except.error DataError.ModelFitError
  else if (df.index.length : ℤ) ≤ order then Except.error DataError.ModelFitError
  else Except.ok (sim df order)

/-- `VAR.Returns` (data_loader.py lines 174-211): clean the realized returns
and hand them to the fitting collaborator.  The `return_params` variant only
additionally forwards `model.params`; the simulated table it returns is the
same, so the embedding models the table-valued result. -/
def VAR.Returns (sim : Table → ℤ → Table) (src : Quandl) (tickers : List String)
    (s e : Option ℤ) (freq : Freq) (csv : Option Table) (model_order : ℤ) :
    Except DataError Table :=
  match (Finance.Returns src tickers s e freq csv).1 with
  | Except.error er => Except.error er
  | Except.ok df => _VAR sim (clean df) model_order

/-- Cumulative product of a list with a running accumulator: the embedding of
pandas `cumprod()` down one column (`cumprodAux acc [x1, x2, ...] =
[acc*x1, acc*x1*x2, ...]`). -/
def cumprodAux (acc : ℚ) : List ℚ → List ℚ
  | [] => []
  | x :: xs => (acc * x) :: cumprodAux (acc * x) xs

/-- `cumprod()` down one column. -/
def cumprod (l : List ℚ) : List ℚ := cumprodAux 1 l

/-- The reconstruction step of `VAR.Prices` (data_loader.py line 256):
`(returns + 1).cumprod()`, applied column by column. -/
def VAR.reconstruct (t : Table) : Table :=
  { index := t.index,
    cols := t.cols,
    data := t.data.map (fun c => cumprod (c.map (fun r => r + 1))) }

/-- `VAR.Prices` (data_loader.py lines 213-257): obtain the simulated returns,
re-clean them, and reconstruct a price path by cumulative product. -/
def VAR.Prices (sim : Table → ℤ → Table) (src : Quandl) (tickers : List String)
    (s e : Option ℤ) (freq : Freq) (csv : Option Table) (model_order : ℤ) :
    Except DataError Table :=
  match VAR.Returns sim src tickers s e freq csv model_order with
  | Except.error er => Except.error er
  | Except.ok returns => Except.ok (VAR.reconstruct (clean returns))

/-- The spec's anchored cumulative-product reconstruction (section 8,
round-trip property): rebuild a price column from its first price `p0` and a
return column by the scan `price[t] = price[t-1] * (1 + return[t])`. -/
def reconstructAnchored (p0 : ℚ) (rets : List ℚ) : List ℚ :=
  p0 :: cumprodAux p0 (rets.map (fun r => 1 + r))

/-- The spec's `Returns-then-reconstruct` table operation: rebuild every column
of `orig` from its first price and the corresponding column of the return
table `rets`. -/
def Table.reconstructFromFirst (orig rets : Table) : Table :=
  { index := orig.index,
    cols := orig.cols,
    data := List.zipWith (fun c r => reconstructAnchored (c.headD 0) r) orig.data rets.data }

/-- A concrete provider knowing one ticker, used to evaluate the model. -/
def sampleSrc : Quandl :=
  fun t _ _ => if t = "A" then some [(0, 1), (1, 2)] else none

/-- A provider for which every fetch fails. -/
def noneSrc : Quandl := fun _ _ _ => none

/-- A concrete two-column cache whose native column order is `["B", "A"]`. -/
def sampleCache : Table := ⟨[0], ["B", "A"], [[1], [2]]⟩

/-- The table `sampleSrc` yields on the live path for ticker `A`. -/
def samplePrices : Table := ⟨[0, 1], ["A"], [[1, 2]]⟩

/-- A concrete empty cache table. -/
def emptyTable : Table := ⟨[], [], []⟩

/-- A concrete one-column price table with positive entries. -/
def samplePosPrices : Table := ⟨[0, 1, 2], ["A"], [[2, 3, 6]]⟩

/-- A concrete simulated-return column, the spec's worked example. -/
def sampleRets : Table := ⟨[0, 1, 2], ["X"], [[1/100, -1/50, 3/100]]⟩

theorem cumprodAux_pos (l : List ℚ) : ∀ acc : ℚ, 0 < acc → (∀ x ∈ l, 0 < x) →
    ∀ y ∈ cumprodAux acc l, 0 < y := by
  induction l with
  | nil => intro acc _ _ y hy; simp [cumprodAux] at hy
  | cons x xs ih =>
    intro acc hacc hl y hy
    have hx : 0 < x := hl x (by simp)
    have hax : 0 < acc * x := mul_pos hacc hx
    rcases List.mem_cons.mp hy with h | h
    · simpa [h] using hax
    · exact ih (acc * x) hax (fun z hz => hl z (List.mem_cons_of_mem _ hz)) y h

theorem cumprodAux_getD_succ (l : List ℚ) : ∀ (acc : ℚ) (i : ℕ), i + 1 < l.length →
    (cumprodAux acc l).getD (i + 1) 0 =
      (cumprodAux acc l).getD i 0 * l.getD (i + 1) 0 := by
  induction l with
  | nil => intro acc i h; simp at h
  | cons x xs ih =>
    intro acc i h
    cases i with
    | zero =>
      cases xs with
      | nil => simp at h
      | cons y ys => simp [cumprodAux, mul_assoc]
    | succ j =>
      have hj : j + 1 < xs.length := by simpa using h
      have := ih (acc * x) j hj
      simpa [cumprodAux] using this

theorem getD_map_rat (f : ℚ → ℚ) (c : List ℚ) (i : ℕ) (h : i < c.length) :
    (c.map f).getD i 0 = f (c.getD i 0) := by
  have h2 : i < (c.map f).length := by simpa
  rw [List.getD_eq_getElem?_getD, List.getElem?_eq_getElem h2,
    List.getD_eq_getElem?_getD, List.getElem?_eq_getElem h]
  simp

theorem pct_reconstruct (l : List ℚ) : ∀ a : ℚ, a ≠ 0 → (∀ x ∈ l, x ≠ 0) →
    cumprodAux a
      ((List.zipWith (fun p q => (q - p) / p) (a :: l) l).map (fun r => 1 + r)) = l := by
  induction l with
  | nil => intro a _ _; rfl
  | cons b m ih =>
    intro a ha hl
    have hb : b ≠ 0 := hl b (by simp)
    have key : a * (1 + (b - a) / a) = b := by field_simp
    show (a * (1 + (b - a) / a)) ::
        cumprodAux (a * (1 + (b - a) / a))
          ((List.zipWith (fun p q => (q - p) / p) (b :: m) m).map (fun r => 1 + r)) =
      b :: m
    rw [key]
    exact congrArg (b :: ·) (ih b hb (fun x hx => hl x (List.mem_cons_of_mem _ hx)))

theorem pctCol_reconstruct (c : List ℚ) (hne : c ≠ []) (h0 : ∀ x ∈ c, x ≠ 0) :
    reconstructAnchored (c.headD 0) (pctCol c) = c := by
  cases c with
  | nil => exact absurd rfl hne
  | cons a l =>
    have ha : a ≠ 0 := h0 a (by simp)
    show a :: cumprodAux a
        ((List.zipWith (fun p q => (q - p) / p) (a :: l) l).map (fun r => 1 + r)) =
      a :: l
    exact congrArg (a :: ·) (pct_reconstruct l a ha
      (fun x hx => h0 x (List.mem_cons_of_mem _ hx)))

/-- C1: for every price table `P` with at least two rows and no missing values
(in this model, a well-formed table; its entries are positive, the Price
Table invariant of the data model), deriving returns the way the live path of
`Finance.Returns` does (`Table.pctChangeDrop`) and reconstructing prices by
the cumulative-product scan anchored at `P`'s first prices
(`Table.reconstructFromFirst`) reproduces `P` exactly over `ℚ`. -/
theorem C1_round_trip (P : Table) (hwf : P.WF) (h2 : 2 ≤ P.index.length)
    (hpos : ∀ c ∈ P.data, ∀ x ∈ c, 0 < x) :
    P.reconstructFromFirst P.pctChangeDrop = P := by
  have hdata : List.zipWith (fun c r => reconstructAnchored (c.headD 0) r)
      P.data (P.data.map pctCol) = P.data := by
    rw [List.zipWith_map_right, List.zipWith_same]
    have hcong : ∀ c ∈ P.data, reconstructAnchored (c.headD 0) (pctCol c) = c := by
      intro c hc
      apply pctCol_reconstruct
      · have hlen := hwf.2 c hc
        intro hnil
        rw [hnil] at hlen
        simp at hlen
        omega
      · exact fun x hx => (hpos c hc x hx).ne'
    calc P.data.map (fun c => reconstructAnchored (c.headD 0) (pctCol c))
        = P.data.map id := List.map_congr_left hcong
      _ = P.data := List.map_id _
  obtain ⟨idx, cs, d⟩ := P
  simp only [Table.reconstructFromFirst, Table.pctChangeDrop, Table.mk.injEq]
  exact ⟨trivial, trivial, hdata⟩

/-- C1 witness: the round trip evaluated at a concrete three-row price table. -/
theorem C1_round_trip_witness :
    samplePosPrices.reconstructFromFirst samplePosPrices.pctChangeDrop = samplePosPrices :=
  C1_round_trip samplePosPrices
    (by constructor <;> simp [samplePosPrices, Table.WF])
    (by simp [samplePosPrices])
    (by intro c hc x hx
        simp [samplePosPrices] at hc
        subst hc
        rcases List.mem_cons.mp hx with h | h
        · norm_num [h]
        · rcases List.mem_cons.mp h with h1 | h1
          · norm_num [h1]
          · simp at h1; norm_num [h1])

/-- C2: the reconstruction step of `VAR.Prices` applies `(return + 1)`
cumulative products column by column; down any column the result satisfies
`price[0] = 1 + return[0]` and `price[t] = price[t-1] * (1 + return[t])`,
and on the simulated return column `[0.01, -0.02, 0.03]` the prices with
base `1` are exactly `[1.01, 0.9898, 1.019494]`. -/
theorem C2_cumprod_reconstruction :
    (∀ t : Table, (VAR.reconstruct t).data =
      t.data.map (fun c => cumprod (c.map (fun r => r + 1)))) ∧
    (∀ (c : List ℚ), c ≠ [] →
      (cumprod (c.map (fun r => r + 1))).getD 0 0 = 1 + c.getD 0 0) ∧
    (∀ (c : List ℚ) (i : ℕ), i + 1 < c.length →
      (cumprod (c.map (fun r => r + 1))).getD (i + 1) 0 =
        (cumprod (c.map (fun r => r + 1))).getD i 0 * (1 + c.getD (i + 1) 0)) ∧
    VAR.reconstruct sampleRets =
      ⟨[0, 1, 2], ["X"], [[101/100, 4949/5000, 509747/500000]]⟩ := by
  refine ⟨fun t => rfl, ?_, ?_, ?_⟩
  · intro c hne
    cases c with
    | nil => exact absurd rfl hne
    | cons a l =>
      show (1 * (a + 1)) = 1 + a
      ring
  · intro c i h
    have hlen : i + 1 < (c.map (fun r => r + 1)).length := by simpa
    have hrec := cumprodAux_getD_succ (c.map (fun r => r + 1)) 1 i hlen
    rw [cumprod, hrec, getD_map_rat _ _ _ h]
    ring
  · show VAR.reconstruct sampleRets = _
    simp only [VAR.reconstruct, sampleRets, cumprod, cumprodAux, List.map, Table.mk.injEq]
    norm_num

/-- C2 witness: the second-step recurrence evaluated on the worked example. -/
theorem C2_cumprod_reconstruction_witness :
    (cumprod (([1/100, -1/50, 3/100] : List ℚ).map (fun r => r + 1))).getD 1 0 =
      (cumprod (([1/100, -1/50, 3/100] : List ℚ).map (fun r => r + 1))).getD 0 0 *
        (1 + ([1/100, -1/50, 3/100] : List ℚ).getD 1 0) :=
  C2_cumprod_reconstruction.2.2.1 [1/100, -1/50, 3/100] 0 (by norm_num)

/-- C10: for every cleaned simulated return table whose entries all exceed
`-1`, each entry of the price table reconstructed by the cumulative-product
step of `VAR.Prices` is strictly positive. -/
theorem C10_reconstructed_prices_positive (t : Table)
    (h : ∀ c ∈ t.data, ∀ r ∈ c, -1 < r) :
    ∀ c ∈ (VAR.reconstruct t).data, ∀ x ∈ c, 0 < x := by
  intro c hc
  simp only [VAR.reconstruct] at hc
  rcases List.mem_map.mp hc with ⟨c0, hc0, rfl⟩
  intro x hx
  refine cumprodAux_pos _ 1 one_pos ?_ x hx
  intro y hy
  rcases List.mem_map.mp hy with ⟨r, hr, rfl⟩
  have := h c0 hc0 r hr
  linarith

/-- C10 witness: positivity of the reconstructed price at the concrete
one-entry return table with value `-1/2`. -/
theorem C10_reconstructed_prices_positive_witness :
    0 < (((VAR.reconstruct ⟨[0], ["A"], [[-1/2]]⟩).data.headD []).headD 0) := by
  refine C10_reconstructed_prices_positive ⟨[0], ["A"], [[-1/2]]⟩ ?_
    ((VAR.reconstruct ⟨[0], ["A"], [[-1/2]]⟩).data.headD []) ?_ _ ?_
  · intro c hc r hr
    simp at hc
    subst hc
    simp at hr
    subst hr
    norm_num
  · simp [VAR.reconstruct, cumprod, cumprodAux]
  · simp [VAR.reconstruct, cumprod, cumprodAux]

theorem entries_eq (src : Quandl) (s e : Option ℤ) : ∀ tickers : List String,
    (tickers.map (fun t => (t, Finance._get src t s e))).filterMap
        (fun p => p.2.1.map (fun ser => (p.1, ser))) =
      tickers.filterMap (fun t => (src t s e).map (fun ser => (t, ser))) := by
  intro tickers
  induction tickers with
  | nil => rfl
  | cons t ts ih =>
    simp only [Finance._get] at ih
    cases h : src t s e with
    | none => simp [List.filterMap_cons, Finance._get, h, ih, -List.filterMap_map]
    | some ser => simp [List.filterMap_cons, Finance._get, h, ih, -List.filterMap_map]

theorem warnings_eq (src : Quandl) (s e : Option ℤ) : ∀ tickers : List String,
    ((tickers.map (fun t => (t, Finance._get src t s e))).map (fun p => p.2.2)).flatten =
      (tickers.filter (fun t => (src t s e).isNone)).map Finance.warnMsg := by
  intro tickers
  induction tickers with
  | nil => rfl
  | cons t ts ih =>
    simp only [Finance._get] at ih
    cases h : src t s e with
    | none => simp [Finance._get, h, ih, -List.map_map]
    | some ser => simp [Finance._get, h, ih, -List.map_map]

theorem entries_map_fst (src : Quandl) (s e : Option ℤ) : ∀ tickers : List String,
    (tickers.filterMap (fun t => (src t s e).map (fun ser => (t, ser)))).map Prod.fst =
      tickers.filter (fun t => (src t s e).isSome) := by
  intro tickers
  induction tickers with
  | nil => rfl
  | cons t ts ih =>
    cases h : src t s e with
    | none => simp [List.filterMap_cons, h, ih]
    | some ser => simp [List.filterMap_cons, h, ih]

theorem live_cols (entries : List (String × Series)) (freq : Freq) :
    (((assemble entries).sortIndex).resample freq).cols = entries.map Prod.fst := rfl

theorem entries_empty_iff (src : Quandl) (s e : Option ℤ) (tickers : List String) :
    (tickers.filterMap (fun t => (src t s e).map (fun ser => (t, ser)))) = [] ↔
      ∀ t ∈ tickers, src t s e = none := by
  rw [List.filterMap_eq_nil_iff]
  constructor
  · intro h t ht
    have := h t ht
    simpa using this
  · intro h t ht
    simp [h t ht]

/-- C4: a live-path request fails with `DataUnavailable` exactly when no
requested ticker's fetch succeeds, and a successful live result always has at
least one column (never an empty-but-successful table). -/
theorem C4_empty_result_failure (src : Quandl) (tickers : List String)
    (s e : Option ℤ) (freq : Freq) :
    ((Finance.Prices src tickers s e freq none).1 = Except.error DataError.DataUnavailable ↔
      ∀ t ∈ tickers, src t s e = none) ∧
    (∀ P : Table, (Finance.Prices src tickers s e freq none).1 = Except.ok P →
      P.cols ≠ []) := by
  have hfin : Finance.Prices src tickers s e freq none =
      Finance.pricesLive src tickers s e freq := rfl
  rw [hfin]
  simp only [Finance.pricesLive, entries_eq]
  by_cases hc : (tickers.filterMap (fun t => (src t s e).map (fun ser => (t, ser)))) = []
  · constructor
    · rw [if_pos (by simpa [List.isEmpty_iff] using hc)]
      exact iff_of_true rfl ((entries_empty_iff src s e tickers).mp hc)
    · intro P hP
      rw [if_pos (by simpa [List.isEmpty_iff] using hc)] at hP
      exact absurd hP (by simp)
  · constructor
    · rw [if_neg (by simpa [List.isEmpty_iff] using hc)]
      refine iff_of_false (by simp) ?_
      exact fun h => hc ((entries_empty_iff src s e tickers).mpr h)
    · intro P hP
      rw [if_neg (by simpa [List.isEmpty_iff] using hc)] at hP
      have hP2 : P = ((assemble (tickers.filterMap
          (fun t => (src t s e).map (fun ser => (t, ser))))).sortIndex).resample freq :=
        (Except.ok.inj hP).symm
      rw [hP2, live_cols]
      simpa using hc

/-- C4 witness: a live request for one unfetchable ticker fails with
`DataUnavailable`. -/
theorem C4_empty_result_failure_witness :
    (Finance.Prices noneSrc ["A"] none none id none).1 =
      Except.error DataError.DataUnavailable :=
  (C4_empty_result_failure noneSrc ["A"] none none id).1.mpr (fun _ _ => rfl)

/-- C5 counterexample: with cache columns natively ordered `["B", "A"]` and
the request `["A", "B"]`, the output columns are `["A", "B"]` — the caller's
requested order — and differ from the cache's native order `["B", "A"]`,
refuting the claimed cache-native column ordering. -/
theorem C5_cache_column_order_counterexample :
    (Finance._csv sampleCache ["A", "B"]).cols = ["A", "B"] ∧
    (Finance._csv sampleCache ["A", "B"]).cols ≠
      sampleCache.cols.filter (fun n => ["A", "B"].contains n) := by
  constructor
  · rfl
  · intro h
    rw [show (Finance._csv sampleCache ["A", "B"]).cols = ["A", "B"] from rfl] at h
    rw [show sampleCache.cols.filter (fun n => ["A", "B"].contains n) = ["B", "A"]
      from rfl] at h
    simp at h

/-- C5 (amended): for every cached request the output columns are exactly the
requested tickers that exist among the cache's columns, in THE CALLER'S
REQUESTED order (not the cache's native order); a requested ticker absent
from the cache is dropped without error and no column is fabricated. -/
theorem C5_cache_column_order (cache : Table) (tickers : List String) :
    (Finance._csv cache tickers).cols =
      tickers.filter (fun t => cache.cols.contains t) ∧
    ∀ t ∈ (Finance._csv cache tickers).cols, t ∈ tickers ∧ t ∈ cache.cols := by
  constructor
  · rfl
  · intro t ht
    rw [show (Finance._csv cache tickers).cols =
      tickers.filter (fun t => cache.cols.contains t) from rfl] at ht
    have := List.mem_filter.mp ht
    exact ⟨this.1, by simpa using this.2⟩

/-- C5 witness: the amended column rule evaluated at the concrete cache. -/
theorem C5_cache_column_order_witness :
    "A" ∈ (["A", "B"] : List String) ∧ "A" ∈ sampleCache.cols :=
  (C5_cache_column_order sampleCache ["A", "B"]).2 "A" (by decide)

/-- C9: for every cached request, `Finance.Returns` returns the cache's table
(column-restricted and date-sliced) directly, no returns are derived from
prices (the result coincides with the `Finance.Prices` cache path), and the
`freq` argument has no effect on either cache path. -/
theorem C9_cache_bypass (src : Quandl) (tickers : List String) (s e : Option ℤ)
    (f1 f2 : Freq) (cache : Table) :
    Finance.Returns src tickers s e f1 (some cache) =
      (Except.ok ((Finance._csv cache tickers).locSlice s e), []) ∧
    Finance.Returns src tickers s e f1 (some cache) =
      Finance.Returns src tickers s e f2 (some cache) ∧
    Finance.Prices src tickers s e f1 (some cache) =
      Finance.Prices src tickers s e f2 (some cache) ∧
    (Finance.Returns src tickers s e f1 (some cache)).1 =
      (Finance.Prices src tickers s e f1 (some cache)).1 :=
  ⟨rfl, rfl, rfl, rfl⟩

theorem mem_insertBy {α : Type} (key : α → ℤ) (a x : α) (l : List α) :
    x ∈ insertBy key a l → x = a ∨ x ∈ l := by
  induction l with
  | nil =>
    intro h
    exact Or.inl (by simpa [insertBy] using h)
  | cons b bs ih =>
    intro h
    simp only [insertBy] at h
    by_cases hk : key a ≤ key b
    · rw [if_pos hk] at h
      exact List.mem_cons.mp h
    · rw [if_neg hk] at h
      rcases List.mem_cons.mp h with h1 | h2
      · exact Or.inr (h1 ▸ List.mem_cons_self b bs)
      · rcases ih h2 with h3 | h4
        · exact Or.inl h3
        · exact Or.inr (List.mem_cons_of_mem _ h4)

theorem mem_sortBy {α : Type} (key : α → ℤ) (l : List α) (x : α) :
    x ∈ sortBy key l → x ∈ l := by
  induction l with
  | nil => intro h; simp [sortBy] at h
  | cons b bs ih =>
    intro h
    rcases mem_insertBy key b x (sortBy key bs) h with h1 | h2
    · simp [h1]
    · exact List.mem_cons_of_mem _ (ih h2)

theorem mem_sortIndex_index (t : Table) (d : ℤ) :
    d ∈ t.sortIndex.index → d ∈ t.index := by
  intro h
  simp only [Table.sortIndex] at h
  rcases List.mem_map.mp h with ⟨⟨d0, r⟩, hp, heq⟩
  have hzip := mem_sortBy Prod.fst _ _ hp
  have := (List.of_mem_zip hzip).1
  simpa [heq.symm] using this

/-- C8: for every cached request the rows are selected by date-label slicing,
inclusive on both bounds with an absent bound unbounded on that side; when
every cache date lies strictly before the requested start, the result is an
empty table returned successfully, not an error. -/
theorem C8_cached_date_slicing (src : Quandl) (cache : Table)
    (tickers : List String) (sv : ℤ) (e : Option ℤ) (freq : Freq)
    (hs : ∀ d ∈ cache.index, d < sv) :
    (Finance.Prices src tickers (some sv) e freq (some cache)).1 =
      Except.ok ((Finance._csv cache tickers).locSlice (some sv) e) ∧
    (∀ s0 e0 : Option ℤ, ((Finance._csv cache tickers).locSlice s0 e0).index =
      (Finance._csv cache tickers).index.filter (inRange s0 e0)) ∧
    ((Finance._csv cache tickers).locSlice (some sv) e).index = [] := by
  refine ⟨rfl, fun s0 e0 => rfl, ?_⟩
  show (Finance._csv cache tickers).index.filter (inRange (some sv) e) = []
  apply List.filter_eq_nil_iff.mpr
  intro d hd
  have hd2 : d ∈ cache.index :=
    mem_sortIndex_index cache d (by simpa [Finance._csv] using hd)
  have hlt := hs d hd2
  simp only [inRange, Option.all_some, Bool.and_eq_true, decide_eq_true_eq]
  intro hcon
  exact absurd hcon.1 (by omega)

/-- C8 witness: slicing the concrete cache from a start after its last date
yields an empty index. -/
theorem C8_cached_date_slicing_witness :
    ((Finance._csv sampleCache ["A"]).locSlice (some 5) none).index = [] :=
  (C8_cached_date_slicing noneSrc sampleCache ["A"] 5 none id
    (by intro d hd; simp [sampleCache] at hd; omega)).2.2

/-- C7: on every live-path request each failing ticker is logged (one warning
per failure, in request order) and excluded from the output columns, while
the successfully fetched tickers are returned normally: as soon as one
ticker succeeds the call returns a table whose columns are exactly the
successful tickers, so a per-ticker failure never escalates. -/
theorem C7_failure_isolation (src : Quandl) (tickers : List String)
    (s e : Option ℤ) (freq : Freq)
    (hsome : ∃ t ∈ tickers, (src t s e).isSome) :
    (Finance.Prices src tickers s e freq none).2 =
      (tickers.filter (fun t => (src t s e).isNone)).map Finance.warnMsg ∧
    ∃ P : Table, (Finance.Prices src tickers s e freq none).1 = Except.ok P ∧
      P.cols = tickers.filter (fun t => (src t s e).isSome) := by
  have hfin : Finance.Prices src tickers s e freq none =
      Finance.pricesLive src tickers s e freq := rfl
  rw [hfin]
  have hne : (tickers.filterMap (fun t => (src t s e).map (fun ser => (t, ser)))) ≠ [] := by
    intro hnil
    rcases hsome with ⟨t, ht, hsome2⟩
    have := (entries_empty_iff src s e tickers).mp hnil t ht
    simp [this] at hsome2
  simp only [Finance.pricesLive, entries_eq, warnings_eq]
  rw [if_neg (by simpa [List.isEmpty_iff] using hne)]
  refine ⟨rfl, _, rfl, ?_⟩
  rw [live_cols, entries_map_fst]

/-- C7 witness: with one fetchable and one unfetchable ticker, the warning list
names the failure and the output columns keep only the success. -/
theorem C7_failure_isolation_witness :
    (Finance.Prices sampleSrc ["A", "B"] none none id none).2 =
      (["A", "B"].filter (fun t => (sampleSrc t none none).isNone)).map Finance.warnMsg ∧
    ∃ P : Table, (Finance.Prices sampleSrc ["A", "B"] none none id none).1 = Except.ok P ∧
      P.cols = ["A", "B"].filter (fun t => (sampleSrc t none none).isSome) :=
  C7_failure_isolation sampleSrc ["A", "B"] none none id
    ⟨"A", by simp, by simp [sampleSrc]⟩

/-- C6: on the live path, whenever `Finance.Prices` succeeds with a well-formed
price table `P` having at least one row, `Finance.Returns` succeeds with
`P.pctChangeDrop`, which has exactly one row fewer than `P` and the same
columns. -/
theorem C6_shape_invariant (src : Quandl) (tickers : List String) (s e : Option ℤ)
    (freq : Freq) (P : Table)
    (hP : (Finance.Prices src tickers s e freq none).1 = Except.ok P)
    (hwf : P.WF) (_h1 : 1 ≤ P.index.length) :
    (Finance.Returns src tickers s e freq none).1 = Except.ok P.pctChangeDrop ∧
    P.pctChangeDrop.index.length = P.index.length - 1 ∧
    P.pctChangeDrop.cols = P.cols ∧
    ∀ c ∈ P.pctChangeDrop.data, c.length = P.index.length - 1 := by
  refine ⟨?_, List.length_tail _, rfl, ?_⟩
  · have hP2 : (Finance.pricesLive src tickers s e freq).1 = Except.ok P := hP
    show (match Finance.pricesLive src tickers s e freq with
      | (Except.error er, w) => (Except.error er, w)
      | (Except.ok p, w) => (Except.ok p.pctChangeDrop, w)).1 = Except.ok P.pctChangeDrop
    rcases hpl : Finance.pricesLive src tickers s e freq with ⟨r, w⟩
    rw [hpl] at hP2
    have hr : r = Except.ok P := hP2
    rw [hr]
  · intro c hc
    simp only [Table.pctChangeDrop] at hc
    rcases List.mem_map.mp hc with ⟨c0, hc0, rfl⟩
    show (List.zipWith _ c0 c0.tail).length = _
    rw [List.length_zipWith, List.length_tail, hwf.2 c0 hc0,
      min_eq_right (Nat.sub_le _ _)]

/-- C6 witness: the shape invariant evaluated on the concrete live request that
yields the two-row table `samplePrices`. -/
theorem C6_shape_invariant_witness :
    (Finance.Returns sampleSrc ["A"] none none id none).1 =
      Except.ok samplePrices.pctChangeDrop :=
  (C6_shape_invariant sampleSrc ["A"] none none id samplePrices rfl
    (by constructor <;> simp [samplePrices, Table.WF]) (by simp [samplePrices])).1

/-- C3 counterexample: the claim quantifies over every input, but order
validation happens only after the realized returns have been loaded
(data_loader.py line 209 runs before line 210); on a live request where no
ticker is fetchable, `VAR.Returns` with `model_order = 0` fails with the
data-loading failure (`DataUnavailable`), not with `ModelFitError`. -/
theorem C3_order_validation_counterexample :
    VAR.Returns (fun t _ => t) noneSrc ["A"] none none id none 0 =
      Except.error DataError.DataUnavailable ∧
    Except.error (ε := DataError) (α := Table) DataError.DataUnavailable ≠
      Except.error DataError.ModelFitError := by
  refine ⟨rfl, ?_⟩
  intro h
  exact DataError.noConfusion (Except.error.inj h)

/-- C3 (amended): whenever the underlying return-table load succeeds — in
particular on every cached request — calling `VAR.Returns` or `VAR.Prices`
with `model_order = 0` or negative fails with `ModelFitError`, independently
of the fitting collaborator `sim` (so before any fitting attempt). -/
theorem C3_order_validation (sim : Table → ℤ → Table) (src : Quandl)
    (tickers : List String) (s e : Option ℤ) (freq : Freq) (csv : Option Table)
    (model_order : ℤ) (df : Table)
    (hload : (Finance.Returns src tickers s e freq csv).1 = Except.ok df)
    (horder : model_order ≤ 0) :
    VAR.Returns sim src tickers s e freq csv model_order =
      Except.error DataError.ModelFitError ∧
    VAR.Prices sim src tickers s e freq csv model_order =
      Except.error DataError.ModelFitError := by
  have h1 : VAR.Returns sim src tickers s e freq csv model_order =
      Except.error DataError.ModelFitError := by
    unfold VAR.Returns
    rw [hload]
    show _VAR sim (clean df) model_order = Except.error DataError.ModelFitError
    unfold _VAR
    rw [if_pos (show model_order < 1 by omega)]
  exact ⟨h1, by unfold VAR.Prices; rw [h1]⟩

/-- C3 witness: order `0` on a cached request fails with `ModelFitError` for a
concrete fitting collaborator. -/
theorem C3_order_validation_witness :
    VAR.Returns (fun t _ => t) noneSrc [] none none id (some emptyTable) 0 =
      Except.error DataError.ModelFitError :=
  (C3_order_validation (fun t _ => t) noneSrc [] none none id (some emptyTable) 0
    ((Finance._csv emptyTable []).locSlice none none) rfl (by norm_num)).1

end QTrader
